import Mathlib

/-!
Verification of the hapless background-job supervisor core (`hapless/main.py`).

The registry is a pure function of the backing directory's contents, so it is
embedded as the directory state itself: a list of per-job directories keyed by
their numeric directory name.  Operations of the `Hapless` class are translated
function by function.  The `Hap` record class and the helpers `wait_created` /
`kill_proc_tree` live in files that are not part of the sources here
(`hapless/hap.py`, `hapless/utils.py`); those are modelled from the spec and
marked as such in their doc comments.
-/

/-- OS-level state of a live process as reported by the process table
(psutil view): either running normally or stopped/suspended. -/
inductive ProcState where
  | running
  | stopped
deriving DecidableEq, Repr

/-- Modelled from the spec: ProcessFacts (§6), a read-only view over the OS
process table mapping a pid to its state when such a process exists. -/
abbrev ProcTable := Nat → Option ProcState

/-- Contents of one per-job backing directory (§6): the command file, the
optional name marker, the optional pid-binding marker, the optional
exit-code marker. -/
structure HapDir where
  cmd : String
  name : Option String
  pid : Option Nat
  rc : Option Int
deriving DecidableEq, Repr

/-- The registry's backing directory: entries keyed by their numeric
directory name.  Non-numeric entries are ignored by every scan in the
source, so they are not represented. -/
structure Registry where
  dirs : List (Nat × HapDir)
deriving DecidableEq, Repr

/-- The numeric directory names present in the registry. -/
def Registry.keys (st : Registry) : List Nat :=
  st.dirs.map Prod.fst

/-- Reading one directory's contents by its numeric name. -/
def Registry.find (st : Registry) (k : Nat) : Option HapDir :=
  (st.dirs.find? (fun kv => kv.1 == k)).map Prod.snd

/-- `shutil.rmtree` on the directory named `k`: its backing storage is gone. -/
def Registry.rmtree (st : Registry) (k : Nat) : Registry :=
  ⟨st.dirs.filter (fun kv => kv.1 != k)⟩

/-- Derived job status (§4.2). -/
inductive Status where
  | unbound
  | running
  | paused
  | success
  | failed
deriving DecidableEq, Repr

/-- A job record as loaded from its backing directory (`Hap(hap_path)`):
identity, command, optional name, optional bound pid, optional exit code. -/
structure Hap where
  hid : Nat
  cmd : String
  name : Option String
  pid : Option Nat
  rc : Option Int
deriving DecidableEq, Repr

/-- Loading the record stored in directory `k` with contents `d`. -/
def mkHap (k : Nat) (d : HapDir) : Hap :=
  ⟨k, d.cmd, d.name, d.pid, d.rc⟩

/-- Modelled from the spec: `hapless/hap.py` is not among the sources.
Status derivation (§4.2): an exit code present is terminal (`success` for
zero, `failed` otherwise); no pid yet is `unbound`; a bound pid whose OS
process is stopped is `paused`; otherwise the record counts as `running`
(a bound pid with no live OS process and no exit marker yet is treated
conservatively as still active, per §4.2). -/
def Hap.status (h : Hap) (pt : ProcTable) : Status :=
  match h.rc with
  | some rc => if rc = 0 then Status.success else Status.failed
  | none =>
    match h.pid with
    | none => Status.unbound
    | some pid =>
      match pt pid with
      | some ProcState.stopped => Status.paused
      | _ => Status.running

/-- Modelled from the spec: active means derived status RUNNING or PAUSED
(glossary). -/
def Hap.active (h : Hap) (pt : ProcTable) : Bool :=
  h.status pt == Status.running || h.status pt == Status.paused

/-- Modelled from the spec: the live process handle behind `hap.proc`
(`hapless/hap.py` is not among the sources): available only while the
record is active and its pid exists in the OS process table (§3). -/
def Hap.proc (h : Hap) (pt : ProcTable) : Option (Nat × ProcState) :=
  if h.active pt then
    match h.pid with
    | some p => (pt p).map (fun s => (p, s))
    | none => none
  else none

/-- Modelled from the spec: `Hap.bind` writes the pid-binding marker
(write-once bind of the spawned process to the record, §4.3). -/
def Hap.bind (h : Hap) (pid : Nat) : Hap :=
  { h with pid := some pid }

/-- `Hapless._get_hap_dirs`: the numeric directory names, sorted ascending
by numeric value (`sorted(hap_dirs, key=int)`). -/
def Hapless._get_hap_dirs (st : Registry) : List Nat :=
  List.insertionSort (· ≤ ·) st.keys

/-- Reading directory `k`'s optional name marker. -/
def dirName (st : Registry) (k : Nat) : Option String :=
  (Registry.find st k).bind (fun d => d.name)

/-- One step of the name-index build in `Hapless._get_hap_names_map`: a
directory with a name marker overwrites the map entry for that name
(Python dict assignment `names[name] = dir`). -/
def namesStep (st : Registry) (m : String → Option Nat) (k : Nat) : String → Option Nat :=
  match dirName st k with
  | some n => fun s => if s = n then some k else m s
  | none => m

/-- `Hapless._get_hap_names_map`: scan directories in ascending id order and
record each name marker, later entries overwriting earlier ones. -/
def Hapless._get_hap_names_map (st : Registry) : String → Option Nat :=
  (Hapless._get_hap_dirs st).foldl (namesStep st) (fun _ => none)

/-- `Hapless.get_next_hap_id`: `1` when no numeric directories exist, else
the last (largest) existing id plus one. -/
def Hapless.get_next_hap_id (st : Registry) : Nat :=
  match (Hapless._get_hap_dirs st).getLast? with
  | none => 1
  | some k => k + 1

/-- `Hapless.get_hap`: the alias is first matched against the numeric
directory names, then against the name index; no match returns `none`. -/
def Hapless.get_hap (st : Registry) (hapAlias : String) : Option Hap :=
  match (Hapless._get_hap_dirs st).find? (fun k => toString k == hapAlias) with
  | some k => (Registry.find st k).map (mkHap k)
  | none =>
    match Hapless._get_hap_names_map st hapAlias with
    | some k => (Registry.find st k).map (mkHap k)
    | none => none

/-- `Hapless.get_haps`: all records, in ascending id order. -/
def Hapless.get_haps (st : Registry) : List Hap :=
  (Hapless._get_hap_dirs st).filterMap (fun k => (Registry.find st k).map (mkHap k))

/-- `Hapless.create_hap`: allocate the next id, create its directory and
return the unbound record (no pid, no exit code yet). -/
def Hapless.create_hap (st : Registry) (cmd : String) (name : Option String) :
    Registry × Hap :=
  let hid := Hapless.get_next_hap_id st
  let d : HapDir := ⟨cmd, name, none, none⟩
  (⟨st.dirs ++ [(hid, d)]⟩, mkHap hid d)

/-- `Hapless.run`: create the record and detach.  The registry effect seen
by the caller is the record creation; pid binding and the exit-code write
happen later in the detached flow (`run_hap`). -/
def Hapless.run (st : Registry) (cmd : String) (name : Option String) :
    Registry × Hap :=
  Hapless.create_hap st cmd name

/-- `Hapless.run_hap` as the sequence of record states it produces.
`spawn` is the outcome of `subprocess.Popen` (`none` means the spawn itself
raised, e.g. the shell was unavailable); `retcode` is what `proc.wait()`
eventually returns.  On a successful spawn the pid is bound first and only
after the wait completes is the exit-code marker written. -/
def Hapless.run_hap_states (h : Hap) (spawn : Option Nat) (retcode : Int) : List Hap :=
  match spawn with
  | none => [h]
  | some pid => [h, h.bind pid, { h.bind pid with rc := some retcode }]

/-- `Hapless.run_hap`, result view: a spawn failure propagates as an
exception (an immediate launch error) before any marker is written, while a
completed process — whatever its exit code — yields the final record with
the bound pid and the written exit code. -/
def Hapless.run_hap_result (h : Hap) (spawn : Option Nat) (retcode : Int) :
    Except Unit Hap :=
  match spawn with
  | none => Except.error ()
  | some pid => Except.ok { h.bind pid with rc := some retcode }

/-- `Hapless._check_fast_failure`.  `rcAppeared` is the outcome of
`wait_created` (modelled from the spec, `hapless/utils.py` is not among
the sources: a bounded poll for the exit-code marker).  The result `true`
means the quick failure is reported and the launcher exits with an error:
the marker appeared and the recorded exit code is not zero. -/
def Hapless._check_fast_failure (rcAppeared : Bool) (h : Hap) : Bool :=
  rcAppeared && !(h.rc == some 0)

/-- `Hapless.pause_hap`: suspend the process when the handle exists,
otherwise report the error and exit (modelled as `none`).  On success the
updated process table is returned. -/
def Hapless.pause_hap (pt : ProcTable) (h : Hap) : Option ProcTable :=
  match h.proc pt with
  | some (p, _) => some (fun q => if q = p then some ProcState.stopped else pt q)
  | none => none

/-- `Hapless.resume_hap`: resume only when the handle exists and the OS
state is exactly stopped, otherwise report the error and exit (`none`). -/
def Hapless.resume_hap (pt : ProcTable) (h : Hap) : Option ProcTable :=
  match h.proc pt with
  | some (p, s) =>
    if s = ProcState.stopped then
      some (fun q => if q = p then some ProcState.running else pt q)
    else none
  | none => none

/-- The `to_clean` closure inside `Hapless.clean`: a record is removed when
its status is SUCCESS, or FAILED while `cleanAll` (the include-failed flag)
is set. -/
def toCleanPred (cleanAll : Bool) (pt : ProcTable) (h : Hap) : Bool :=
  (h.status pt == Status.success) || (h.status pt == Status.failed && cleanAll)

/-- `Hapless.clean`: remove every record matching `toCleanPred`; returns the
new registry state together with the records removed. -/
def Hapless.clean (cleanAll : Bool) (pt : ProcTable) (st : Registry) :
    Registry × List Hap :=
  let haps := (Hapless.get_haps st).filter (toCleanPred cleanAll pt)
  (haps.foldl (fun r h => Registry.rmtree r h.hid) st, haps)

/-- `Hapless.clean_one`: remove every record whose id equals the given
record's id — the source checks only the id, not the status. -/
def Hapless.clean_one (st : Registry) (h : Hap) : Registry × List Hap :=
  let hid := h.hid
  let haps := (Hapless.get_haps st).filter (fun g => g.hid == hid)
  (haps.foldl (fun r g => Registry.rmtree r g.hid) st, haps)

/-- The `while hap_killed.active:` busy-wait inside `Hapless.restart`:
re-fetch the record by id and poll until its derived status is inactive.
`obs n` and `ptAt n` are the registry and process table observed at the
n-th poll; `fuel` bounds the unbounded source loop (`none` = the loop has
not finished within `fuel` polls, or the fetch returned no record — an
`AttributeError` crash in the source). -/
def restartLoop (obs : Nat → Registry) (ptAt : Nat → ProcTable) (hid : Nat) :
    Nat → Nat → Option (Nat × Hap)
  | 0, _ => none
  | fuel + 1, k =>
    match Hapless.get_hap (obs k) (toString hid) with
    | none => none
    | some h =>
      if h.active (ptAt k) then restartLoop obs ptAt hid fuel (k + 1)
      else some (k, h)

/-- Everything `Hapless.restart` did: whether the kill branch ran, how many
polls the busy-wait took, the record fetched by the last poll, the registry
after the old record's storage was deleted, the newly launched record and
the final registry. -/
structure RestartResult where
  killed : Bool
  polls : Nat
  fetched : Hap
  afterDelete : Registry
  newHap : Hap
  final : Registry
deriving DecidableEq, Repr

/-- `Hapless.restart`: kill if active, busy-wait (re-fetching by id) until
the derived status is inactive, delete the old record's storage, then
launch a new job with the same command and name. -/
def Hapless.restart (fuel : Nat) (obs : Nat → Registry) (ptAt : Nat → ProcTable)
    (hap : Hap) : Option RestartResult :=
  match restartLoop obs ptAt hap.hid fuel 0 with
  | none => none
  | some (k, hapKilled) =>
    some ⟨hap.active (ptAt 0), k, hapKilled,
      (Hapless.clean_one (obs k) hapKilled).1,
      (Hapless.run (Hapless.clean_one (obs k) hapKilled).1 hap.cmd hap.name).2,
      (Hapless.run (Hapless.clean_one (obs k) hapKilled).1 hap.cmd hap.name).1⟩

/-! ### Basic facts about the directory scan -/

lemma mem_get_hap_dirs (st : Registry) (k : Nat) :
    k ∈ Hapless._get_hap_dirs st ↔ k ∈ st.keys :=
  (List.perm_insertionSort (· ≤ ·) st.keys).mem_iff

lemma sorted_get_hap_dirs (st : Registry) :
    List.Sorted (· ≤ ·) (Hapless._get_hap_dirs st) :=
  List.sorted_insertionSort (· ≤ ·) st.keys

lemma foldr_max_mem (l : List Nat) (h : l ≠ []) : l.foldr max 0 ∈ l := by
  induction l with
  | nil => exact absurd rfl h
  | cons a t ih =>
    by_cases ht : t = []
    · subst ht; simp
    · rcases le_total a (t.foldr max 0) with hle | hle
      · have h1 : (a :: t).foldr max 0 = t.foldr max 0 := by
          simp [max_eq_right hle]
        rw [h1]
        exact List.mem_cons_of_mem _ (ih ht)
      · have h1 : (a :: t).foldr max 0 = a := by
          simp [max_eq_left hle]
        rw [h1]
        exact List.mem_cons_self a t

lemma le_foldr_max (l : List Nat) (x : Nat) (hx : x ∈ l) : x ≤ l.foldr max 0 := by
  induction l with
  | nil => cases hx
  | cons a t ih =>
    rcases List.mem_cons.mp hx with rfl | hmem
    · exact le_max_left _ _
    · exact le_trans (ih hmem) (le_max_right _ _)

lemma getLast?_eq_of_sorted_max (l : List Nat) :
    List.Sorted (· ≤ ·) l → ∀ k, k ∈ l → (∀ x ∈ l, x ≤ k) → l.getLast? = some k := by
  induction l with
  | nil => intro _ k hk; cases hk
  | cons a t ih =>
    intro hs k hk hmax
    cases t with
    | nil =>
      simp only [List.mem_singleton] at hk
      subst hk; rfl
    | cons b t2 =>
      have hpair := List.sorted_cons.mp hs
      have hk2 : k ∈ b :: t2 := by
        rcases List.mem_cons.mp hk with rfl | h2
        · have hab : k ≤ b := hpair.1 b (List.mem_cons_self _ _)
          have hbk : b ≤ k := hmax b (List.mem_cons_of_mem _ (List.mem_cons_self _ _))
          have hbe : b = k := le_antisymm hbk hab
          rw [← hbe]
          exact List.mem_cons_self _ _
        · exact h2
      have hmax2 : ∀ x ∈ b :: t2, x ≤ k := fun x hx => hmax x (List.mem_cons_of_mem _ hx)
      rw [List.getLast?_cons_cons]
      exact ih hpair.2 k hk2 hmax2

lemma get_next_hap_id_eq (st : Registry) :
    Hapless.get_next_hap_id st = st.keys.foldr max 0 + 1 := by
  by_cases h : st.keys = []
  · have hd : Hapless._get_hap_dirs st = [] := by
      unfold Hapless._get_hap_dirs
      rw [h]
      rfl
    unfold Hapless.get_next_hap_id
    rw [hd, h]
    rfl
  · have hne : st.keys.foldr max 0 ∈ Hapless._get_hap_dirs st :=
      (mem_get_hap_dirs st _).mpr (foldr_max_mem _ h)
    have hlast := getLast?_eq_of_sorted_max _ (sorted_get_hap_dirs st) _ hne
      (fun x hx => le_foldr_max _ x ((mem_get_hap_dirs st x).mp hx))
    unfold Hapless.get_next_hap_id
    rw [hlast]

lemma get_next_hap_id_not_mem (st : Registry) :
    Hapless.get_next_hap_id st ∉ st.keys := by
  intro hmem
  have h1 := le_foldr_max st.keys _ hmem
  rw [get_next_hap_id_eq st] at h1
  omega

/-! ### Facts about directory lookup -/

lemma assoc_find?_eq (l : List (Nat × HapDir)) (k : Nat) (d : HapDir)
    (hnd : (l.map Prod.fst).Nodup) (hmem : (k, d) ∈ l) :
    l.find? (fun kv => kv.1 == k) = some (k, d) := by
  induction l with
  | nil => cases hmem
  | cons a t ih =>
    rcases List.nodup_cons.mp hnd with ⟨hnotin, hnd2⟩
    rcases List.mem_cons.mp hmem with rfl | hmem2
    · rw [List.find?_cons_of_pos]
      simp
    · have hka : (a.1 == k) = false := by
        apply beq_eq_false_iff_ne.mpr
        intro he
        apply hnotin
        rw [he]
        exact List.mem_map_of_mem Prod.fst hmem2
      rw [List.find?_cons_of_neg _ (by simp [hka])]
      exact ih hnd2 hmem2

lemma nodup_key_unique {l : List (Nat × HapDir)} (hnd : (l.map Prod.fst).Nodup)
    {k : Nat} {a b : HapDir} (ha : (k, a) ∈ l) (hb : (k, b) ∈ l) : a = b := by
  have h1 := assoc_find?_eq l k a hnd ha
  have h2 := assoc_find?_eq l k b hnd hb
  rw [h1] at h2
  exact congrArg Prod.snd (Option.some.inj h2)

lemma registry_find_eq (st : Registry) (k : Nat) (d : HapDir)
    (hnd : st.keys.Nodup) (hmem : (k, d) ∈ st.dirs) :
    Registry.find st k = some d := by
  unfold Registry.find
  rw [assoc_find?_eq st.dirs k d hnd hmem]
  rfl

lemma registry_find_isSome (st : Registry) (k : Nat) (hk : k ∈ st.keys) :
    ∃ d, Registry.find st k = some d := by
  unfold Registry.find
  rcases List.mem_map.mp hk with ⟨kv, hkv, hfst⟩
  have hs : (st.dirs.find? (fun kv => kv.1 == k)).isSome = true := by
    rw [List.find?_isSome]
    exact ⟨kv, hkv, by simp [hfst]⟩
  rcases Option.isSome_iff_exists.mp hs with ⟨kv0, hkv0⟩
  exact ⟨kv0.2, by rw [hkv0]; rfl⟩

lemma registry_find_mem (st : Registry) (k : Nat) (d : HapDir)
    (h : Registry.find st k = some d) : (k, d) ∈ st.dirs := by
  unfold Registry.find at h
  rcases Option.map_eq_some'.mp h with ⟨kv, hfind, hsnd⟩
  have h1 := List.find?_some hfind
  have h2 := List.mem_of_find?_eq_some hfind
  rcases kv with ⟨k1, d1⟩
  have hk1 : k1 = k := by simpa using h1
  have hd1 : d1 = d := hsnd
  rw [hk1, hd1] at h2
  exact h2

/-! ### Claim C3 -/

/-- C3: `get_next_hap_id` returns one more than the largest existing numeric
id (`foldr max 0`, which is `0` exactly when no numeric record directory
exists, so an empty registry yields `1`); in particular after creating ids
{1,2,3} and deleting id 2 the next call returns 4 — deleted ids below the
maximum are never reused. -/
theorem C3_next_id_monotonic :
    (∀ st : Registry, Hapless.get_next_hap_id st = st.keys.foldr max 0 + 1) ∧
    Hapless.get_next_hap_id ⟨[]⟩ = 1 ∧
    Hapless.get_next_hap_id
      (Registry.rmtree
        (Hapless.create_hap
          (Hapless.create_hap (Hapless.create_hap ⟨[]⟩ "a" none).1 "b" none).1
          "c" none).1 2) = 4 :=
  ⟨get_next_hap_id_eq, rfl, by decide⟩

/-! ### Claim C1 -/

/-- C1: during and after `run_hap` on a record that has no exit code yet,
every observable record state with the exit-code marker written also has
the pid already bound — the pid bind happens strictly before the exit-code
write, so no reader can see a return code without a pid. -/
theorem C1_rc_implies_pid (h : Hap) (spawn : Option Nat) (retcode : Int)
    (hrc : h.rc = none) :
    ∀ s ∈ Hapless.run_hap_states h spawn retcode,
      s.rc.isSome = true → s.pid.isSome = true := by
  intro s hs
  cases spawn with
  | none =>
    simp only [Hapless.run_hap_states, List.mem_singleton] at hs
    subst hs
    intro hsome
    rw [hrc] at hsome
    cases hsome
  | some p =>
    simp only [Hapless.run_hap_states, List.mem_cons, List.mem_singleton,
      List.not_mem_nil, or_false] at hs
    rcases hs with rfl | rfl | rfl
    · intro hsome
      rw [hrc] at hsome
      cases hsome
    · intro hsome
      simp only [Hap.bind] at hsome
      rw [hrc] at hsome
      cases hsome
    · intro _
      rfl

/-- Witness for C1 at a concrete fresh record and successful spawn. -/
theorem C1_rc_implies_pid_witness :
    (mkHap 1 ⟨"sleep 5", none, none, none⟩).rc = none ∧
    ∀ s ∈ Hapless.run_hap_states (mkHap 1 ⟨"sleep 5", none, none, none⟩) (some 42) 0,
      s.rc.isSome = true → s.pid.isSome = true :=
  ⟨rfl, C1_rc_implies_pid _ _ _ rfl⟩

/-! ### Claim C7 -/

/-- C7: a spawn failure is distinguished from a non-zero exit: the former
makes `run_hap` surface an immediate launch error with no exit-code marker
ever written, while the latter completes `run_hap` normally, leaving a
record whose exit-code marker holds the non-zero code, whose derived
status is FAILED, and which the fast-failure check recognises through the
marker. -/
theorem C7_spawn_failure_vs_exit (h : Hap) (spawn : Option Nat)
    (retcode : Int) (pt : ProcTable) (hrc : h.rc = none) :
    (spawn = none →
      Hapless.run_hap_result h spawn retcode = Except.error () ∧
      ∀ s ∈ Hapless.run_hap_states h spawn retcode, s.rc = none) ∧
    (∀ p, spawn = some p → retcode ≠ 0 →
      ∃ hFin, Hapless.run_hap_result h spawn retcode = Except.ok hFin ∧
        hFin.rc = some retcode ∧ hFin.pid = some p ∧
        hFin.status pt = Status.failed ∧
        Hapless._check_fast_failure true hFin = true) := by
  constructor
  · rintro rfl
    refine ⟨rfl, ?_⟩
    intro s hs
    simp only [Hapless.run_hap_states, List.mem_singleton] at hs
    subst hs
    exact hrc
  · rintro p rfl hne
    refine ⟨_, rfl, rfl, rfl, ?_, ?_⟩
    · simp only [Hap.status, if_neg hne]
    · simp only [Hapless._check_fast_failure, Bool.true_and, Bool.not_eq_true',
        beq_eq_false_iff_ne, ne_eq, Option.some.injEq]
      exact hne

/-- Witness for C7: a concrete failed spawn and a concrete non-zero exit. -/
theorem C7_spawn_failure_vs_exit_witness :
    (mkHap 1 ⟨"boom", none, none, none⟩).rc = none ∧
    (Hapless.run_hap_result (mkHap 1 ⟨"boom", none, none, none⟩) none 0
        = Except.error () ∧
      ∀ s ∈ Hapless.run_hap_states (mkHap 1 ⟨"boom", none, none, none⟩) none 0,
        s.rc = none) ∧
    ∃ hFin, Hapless.run_hap_result (mkHap 1 ⟨"boom", none, none, none⟩) (some 7) 2
        = Except.ok hFin ∧
      hFin.rc = some 2 ∧ hFin.pid = some 7 ∧
      hFin.status (fun _ => none) = Status.failed ∧
      Hapless._check_fast_failure true hFin = true := by
  refine ⟨rfl, ?_, ?_⟩
  · exact (C7_spawn_failure_vs_exit (mkHap 1 ⟨"boom", none, none, none⟩) none 0
      (fun _ => none) rfl).1 rfl
  · exact (C7_spawn_failure_vs_exit (mkHap 1 ⟨"boom", none, none, none⟩) (some 7) 2
      (fun _ => none) rfl).2 7 rfl (by decide)

/-! ### Facts about record listing and removal -/

lemma mem_get_haps_elim (st : Registry) (h : Hap) (hmem : h ∈ Hapless.get_haps st) :
    ∃ d, (h.hid, d) ∈ st.dirs ∧ h = mkHap h.hid d := by
  unfold Hapless.get_haps at hmem
  rcases List.mem_filterMap.mp hmem with ⟨k, _, hmap⟩
  rcases Option.map_eq_some'.mp hmap with ⟨d, hfind, hmk⟩
  subst hmk
  exact ⟨d, registry_find_mem st k d hfind, rfl⟩

lemma mem_get_haps_intro (st : Registry) (k : Nat) (d : HapDir)
    (hnd : st.keys.Nodup) (hmem : (k, d) ∈ st.dirs) :
    mkHap k d ∈ Hapless.get_haps st := by
  unfold Hapless.get_haps
  apply List.mem_filterMap.mpr
  refine ⟨k, ?_, ?_⟩
  · exact (mem_get_hap_dirs st k).mpr (List.mem_map_of_mem Prod.fst hmem)
  · rw [registry_find_eq st k d hnd hmem]
    rfl

lemma mem_get_haps_of_key (st : Registry) (k : Nat) (hk : k ∈ st.keys) :
    ∃ d, Registry.find st k = some d ∧ mkHap k d ∈ Hapless.get_haps st := by
  rcases registry_find_isSome st k hk with ⟨d, hd⟩
  refine ⟨d, hd, ?_⟩
  unfold Hapless.get_haps
  apply List.mem_filterMap.mpr
  refine ⟨k, (mem_get_hap_dirs st k).mpr hk, ?_⟩
  rw [hd]
  rfl

lemma foldl_rmtree_dirs (hs : List Hap) (st : Registry) :
    (hs.foldl (fun r g => Registry.rmtree r g.hid) st).dirs
      = st.dirs.filter (fun kv => !(hs.any (fun g => kv.1 == g.hid))) := by
  induction hs generalizing st with
  | nil =>
    simp
  | cons g t ih =>
    rw [List.foldl_cons, ih]
    unfold Registry.rmtree
    rw [List.filter_filter]
    apply List.filter_congr
    intro kv _
    simp only [List.any_cons, Bool.not_or, bne]
    rw [Bool.and_comm]

/-! ### Facts about clean -/

lemma clean_any_iff (cleanAll : Bool) (pt : ProcTable) (st : Registry)
    (hnd : st.keys.Nodup) (k : Nat) (d : HapDir) (hmem : (k, d) ∈ st.dirs) :
    ((Hapless.get_haps st).filter (toCleanPred cleanAll pt)).any
        (fun g => k == g.hid) = true
      ↔ toCleanPred cleanAll pt (mkHap k d) = true := by
  constructor
  · intro hany
    rcases List.any_eq_true.mp hany with ⟨g, hg, hkg⟩
    rcases List.mem_filter.mp hg with ⟨hgmem, hgclean⟩
    rcases mem_get_haps_elim st g hgmem with ⟨d2, hd2, hgeq⟩
    have hkid : k = g.hid := by simpa using hkg
    have hd2k : (k, d2) ∈ st.dirs := by rw [hkid]; exact hd2
    have hdd : d2 = d := nodup_key_unique hnd hd2k hmem
    rw [hgeq, hkid.symm, hdd] at hgclean
    exact hgclean
  · intro hclean
    apply List.any_eq_true.mpr
    refine ⟨mkHap k d, List.mem_filter.mpr
      ⟨mem_get_haps_intro st k d hnd hmem, hclean⟩, ?_⟩
    simp [mkHap]

lemma clean_mem_iff (cleanAll : Bool) (pt : ProcTable) (st : Registry)
    (hnd : st.keys.Nodup) (k : Nat) (d : HapDir) (hmem : (k, d) ∈ st.dirs) :
    (k, d) ∈ ((Hapless.clean cleanAll pt st).1).dirs
      ↔ toCleanPred cleanAll pt (mkHap k d) = false := by
  have hdirs : ((Hapless.clean cleanAll pt st).1).dirs
      = st.dirs.filter
          (fun kv => !(((Hapless.get_haps st).filter (toCleanPred cleanAll pt)).any
            (fun g => kv.1 == g.hid))) :=
    foldl_rmtree_dirs _ st
  rw [hdirs, List.mem_filter]
  constructor
  · rintro ⟨_, hnot⟩
    rcases Bool.not_eq_true' .. |>.mp hnot with hany
    rcases Bool.eq_false_iff.mp hany with hne
    cases hcl : toCleanPred cleanAll pt (mkHap k d) with
    | false => rfl
    | true =>
      exact absurd ((clean_any_iff cleanAll pt st hnd k d hmem).mpr hcl) hne
  · intro hfalse
    refine ⟨hmem, ?_⟩
    rw [Bool.not_eq_true']
    cases hany : ((Hapless.get_haps st).filter (toCleanPred cleanAll pt)).any
        (fun g => (k, d).1 == g.hid) with
    | false => rfl
    | true =>
      have := (clean_any_iff cleanAll pt st hnd k d hmem).mp hany
      rw [this] at hfalse
      cases hfalse

lemma clean_twice_removes_nothing (pt : ProcTable) (st : Registry)
    (hnd : st.keys.Nodup) :
    (Hapless.clean false pt ((Hapless.clean false pt st).1)).2 = [] := by
  show (Hapless.get_haps ((Hapless.clean false pt st).1)).filter
      (toCleanPred false pt) = []
  apply List.filter_eq_nil_iff.mpr
  intro g hg
  rcases mem_get_haps_elim _ g hg with ⟨d, hd, hgeq⟩
  have hdirs : ((Hapless.clean false pt st).1).dirs
      = st.dirs.filter
          (fun kv => !(((Hapless.get_haps st).filter (toCleanPred false pt)).any
            (fun g2 => kv.1 == g2.hid))) :=
    foldl_rmtree_dirs _ st
  rw [hdirs] at hd
  rcases List.mem_filter.mp hd with ⟨hd1, hd2⟩
  rw [Bool.not_eq_true'] at hd2
  intro hgc
  have hcl : toCleanPred false pt (mkHap g.hid d) = true := by
    rw [← hgeq]
    exact hgc
  have := (clean_any_iff false pt st hnd g.hid d hd1).mpr hcl
  rw [this] at hd2
  cases hd2

/-! ### Claim C4 -/

/-- C4: with the include-failed flag off, `clean` deletes exactly the
records whose derived status is SUCCESS (a record survives iff its status
is not SUCCESS); with the flag on it deletes exactly the SUCCESS and
FAILED ones; and running `clean` twice in a row against the same process
facts removes zero records the second time. -/
theorem C4_clean_exactly_success (pt : ProcTable) (st : Registry)
    (hnd : st.keys.Nodup) :
    (∀ k d, (k, d) ∈ st.dirs →
        ((k, d) ∈ ((Hapless.clean false pt st).1).dirs
          ↔ (mkHap k d).status pt ≠ Status.success)) ∧
    (∀ k d, (k, d) ∈ st.dirs →
        ((k, d) ∈ ((Hapless.clean true pt st).1).dirs
          ↔ ((mkHap k d).status pt ≠ Status.success ∧
             (mkHap k d).status pt ≠ Status.failed))) ∧
    (Hapless.clean false pt ((Hapless.clean false pt st).1)).2 = [] := by
  refine ⟨?_, ?_, clean_twice_removes_nothing pt st hnd⟩
  · intro k d hmem
    rw [clean_mem_iff false pt st hnd k d hmem]
    unfold toCleanPred
    simp [beq_eq_false_iff_ne]
  · intro k d hmem
    rw [clean_mem_iff true pt st hnd k d hmem]
    unfold toCleanPred
    simp [beq_eq_false_iff_ne]

/-- Witness for C4 on a concrete registry holding a succeeded, a failed and
a running record. -/
theorem C4_clean_exactly_success_witness :
    (Registry.mk [(1, ⟨"a", none, some 4, some 0⟩),
      (2, ⟨"b", none, some 5, some 3⟩),
      (3, ⟨"c", none, some 6, none⟩)]).keys.Nodup ∧
    (Hapless.clean false (fun p => if p = 6 then some ProcState.running else none)
        ((Hapless.clean false (fun p => if p = 6 then some ProcState.running else none)
          (Registry.mk [(1, ⟨"a", none, some 4, some 0⟩),
            (2, ⟨"b", none, some 5, some 3⟩),
            (3, ⟨"c", none, some 6, none⟩)])).1)).2 = [] :=
  ⟨by decide,
    (C4_clean_exactly_success
      (fun p => if p = 6 then some ProcState.running else none)
      (Registry.mk [(1, ⟨"a", none, some 4, some 0⟩),
        (2, ⟨"b", none, some 5, some 3⟩),
        (3, ⟨"c", none, some 6, none⟩)]) (by decide)).2.2⟩

/-! ### Claim C5 -/

lemma clean_one_mem_iff (st : Registry) (h : Hap) (k : Nat) (d : HapDir)
    (hmem : (k, d) ∈ st.dirs) :
    (k, d) ∈ ((Hapless.clean_one st h).1).dirs ↔ k ≠ h.hid := by
  have hdirs : ((Hapless.clean_one st h).1).dirs
      = st.dirs.filter
          (fun kv => !(((Hapless.get_haps st).filter (fun g => g.hid == h.hid)).any
            (fun g => kv.1 == g.hid))) :=
    foldl_rmtree_dirs _ st
  rw [hdirs, List.mem_filter]
  constructor
  · rintro ⟨_, hnot⟩
    rw [Bool.not_eq_true'] at hnot
    intro hk
    have hkey : k ∈ st.keys := List.mem_map_of_mem Prod.fst hmem
    rcases mem_get_haps_of_key st k hkey with ⟨d0, _, hg⟩
    have hany : ((Hapless.get_haps st).filter (fun g => g.hid == h.hid)).any
        (fun g => (k, d).1 == g.hid) = true := by
      apply List.any_eq_true.mpr
      refine ⟨mkHap k d0, List.mem_filter.mpr ⟨hg, ?_⟩, ?_⟩
      · simp [mkHap, hk]
      · simp [mkHap]
    rw [hany] at hnot
    cases hnot
  · intro hk
    refine ⟨hmem, ?_⟩
    rw [Bool.not_eq_true']
    apply List.any_eq_false.mpr
    intro g hgf
    rcases List.mem_filter.mp hgf with ⟨_, hghid⟩
    have hgh : g.hid = h.hid := by simpa using hghid
    intro hkg
    have hkk : k = g.hid := by simpa using hkg
    exact hk (hkk.trans hgh)

/-- C5 counterexample: `clean_one` deletes the backing storage of a record
whose derived status is active (RUNNING), because the source filters by id
only and never checks a terminal-status predicate there. -/
theorem C5_counterexample_clean_one_deletes_active :
    (mkHap 1 ⟨"sleep 100", none, some 5, none⟩).active
        (fun p => if p = 5 then some ProcState.running else none) = true ∧
    ((Hapless.clean_one ⟨[(1, ⟨"sleep 100", none, some 5, none⟩)]⟩
        (mkHap 1 ⟨"sleep 100", none, some 5, none⟩)).1).dirs = [] := by
  exact ⟨by decide, by decide⟩

/-- C5 as amended: `clean` (with or without the include-failed flag) never
deletes an active record's storage, but `clean_one` deletes the record
whose id matches the given one regardless of its status: a surviving entry
is exactly one whose id differs. -/
theorem C5_amended_active_never_cleaned :
    (∀ (cleanAll : Bool) (pt : ProcTable) (st : Registry) (k : Nat) (d : HapDir),
        st.keys.Nodup → (k, d) ∈ st.dirs → (mkHap k d).active pt = true →
        (k, d) ∈ ((Hapless.clean cleanAll pt st).1).dirs) ∧
    (∀ (st : Registry) (h : Hap) (k : Nat) (d : HapDir),
        (k, d) ∈ st.dirs →
        ((k, d) ∈ ((Hapless.clean_one st h).1).dirs ↔ k ≠ h.hid)) := by
  constructor
  · intro cleanAll pt st k d hnd hmem hact
    rw [clean_mem_iff cleanAll pt st hnd k d hmem]
    have : (mkHap k d).status pt = Status.running ∨
        (mkHap k d).status pt = Status.paused := by
      rcases Bool.or_eq_true .. |>.mp hact with h1 | h1
      · exact Or.inl (by simpa using h1)
      · exact Or.inr (by simpa using h1)
    unfold toCleanPred
    rcases this with h1 | h1 <;> rw [h1] <;> rfl
  · intro st h k d hmem
    exact clean_one_mem_iff st h k d hmem

/-- Witness for the amended C5: a concrete active record survives `clean`,
and a concrete entry with a different id survives `clean_one`. -/
theorem C5_amended_active_never_cleaned_witness :
    (1, (⟨"sleep 100", none, some 5, none⟩ : HapDir)) ∈
      ((Hapless.clean true (fun p => if p = 5 then some ProcState.running else none)
        ⟨[(1, ⟨"sleep 100", none, some 5, none⟩)]⟩).1).dirs ∧
    ((1, (⟨"sleep 100", none, some 5, none⟩ : HapDir)) ∈
        ((Hapless.clean_one ⟨[(1, ⟨"sleep 100", none, some 5, none⟩)]⟩
          (mkHap 2 ⟨"other", none, none, none⟩)).1).dirs ↔ (1 : Nat) ≠ 2) :=
  ⟨C5_amended_active_never_cleaned.1 true
      (fun p => if p = 5 then some ProcState.running else none)
      ⟨[(1, ⟨"sleep 100", none, some 5, none⟩)]⟩ 1
      ⟨"sleep 100", none, some 5, none⟩ (by decide) (by decide) (by decide),
    C5_amended_active_never_cleaned.2
      ⟨[(1, ⟨"sleep 100", none, some 5, none⟩)]⟩
      (mkHap 2 ⟨"other", none, none, none⟩) 1
      ⟨"sleep 100", none, some 5, none⟩ (by decide)⟩

/-! ### Claim C8 -/

/-- C8: `resume_hap` succeeds exactly when the record's process handle
exists and its OS-reported state is exactly stopped/suspended, in which
case it resumes the process (the pid's table entry becomes running); a
record whose process is running, or whose handle is gone (inactive or
terminated), makes `resume_hap` fail with the reported error instead of
being a no-op. -/
theorem C8_resume_requires_stopped (pt : ProcTable) (h : Hap) :
    ((Hapless.resume_hap pt h).isSome = true ↔
      ∃ p, h.proc pt = some (p, ProcState.stopped)) ∧
    (∀ p, h.proc pt = some (p, ProcState.stopped) →
      Hapless.resume_hap pt h
        = some (fun q => if q = p then some ProcState.running else pt q)) ∧
    (∀ p, h.proc pt = some (p, ProcState.running) →
      Hapless.resume_hap pt h = none) ∧
    (h.proc pt = none → Hapless.resume_hap pt h = none) := by
  refine ⟨?_, ?_, ?_, ?_⟩
  · unfold Hapless.resume_hap
    cases hp : h.proc pt with
    | none => simp
    | some ps =>
      rcases ps with ⟨p, s⟩
      cases s with
      | running => simp
      | stopped => simp
  · intro p hp
    unfold Hapless.resume_hap
    rw [hp]
    rfl
  · intro p hp
    unfold Hapless.resume_hap
    rw [hp]
    rfl
  · intro hp
    unfold Hapless.resume_hap
    rw [hp]

/-- Witness for C8: a concrete paused record is resumed; the same record's
handle is indeed stopped. -/
theorem C8_resume_requires_stopped_witness :
    (mkHap 1 ⟨"job", none, some 5, none⟩).proc
        (fun p => if p = 5 then some ProcState.stopped else none)
      = some (5, ProcState.stopped) ∧
    Hapless.resume_hap (fun p => if p = 5 then some ProcState.stopped else none)
        (mkHap 1 ⟨"job", none, some 5, none⟩)
      = some (fun q => if q = 5 then some ProcState.running
          else (fun p => if p = 5 then some ProcState.stopped else none) q) :=
  ⟨by decide,
    (C8_resume_requires_stopped
      (fun p => if p = 5 then some ProcState.stopped else none)
      (mkHap 1 ⟨"job", none, some 5, none⟩)).2.1 5 (by decide)⟩

/-! ### Claim C9 -/

/-- C9 counterexample: a record whose derived status is PAUSED (so: active
but already paused) is happily "paused" again — `pause_hap` succeeds
because the source only checks that the process handle exists, never that
the record is not already paused. -/
theorem C9_counterexample_pause_already_paused :
    (mkHap 1 ⟨"job", none, some 5, none⟩).status
        (fun p => if p = 5 then some ProcState.stopped else none)
      = Status.paused ∧
    (Hapless.pause_hap (fun p => if p = 5 then some ProcState.stopped else none)
        (mkHap 1 ⟨"job", none, some 5, none⟩)).isSome = true := by
  exact ⟨by decide, by decide⟩

/-- C9 as amended: `pause_hap` succeeds exactly when the record's process
handle exists — that is, whenever the record is active, including when it
is already paused (the process is then just suspended again) — and it
fails with the reported error whenever the record is inactive. -/
theorem C9_amended_pause_requires_handle (pt : ProcTable) (h : Hap) :
    ((Hapless.pause_hap pt h).isSome = (h.proc pt).isSome) ∧
    (∀ p s, h.proc pt = some (p, s) →
      Hapless.pause_hap pt h
        = some (fun q => if q = p then some ProcState.stopped else pt q)) ∧
    (h.active pt = false → Hapless.pause_hap pt h = none) := by
  refine ⟨?_, ?_, ?_⟩
  · unfold Hapless.pause_hap
    cases hp : h.proc pt with
    | none => rfl
    | some ps => rcases ps with ⟨p, s⟩; rfl
  · intro p s hp
    unfold Hapless.pause_hap
    rw [hp]
  · intro hact
    unfold Hapless.pause_hap
    have hp : h.proc pt = none := by
      unfold Hap.proc
      rw [hact]
      rfl
    rw [hp]

/-- Witness for the amended C9: pausing a concrete running record suspends
it, and pausing a concrete inactive (terminated) record fails. -/
theorem C9_amended_pause_requires_handle_witness :
    Hapless.pause_hap (fun p => if p = 5 then some ProcState.running else none)
        (mkHap 1 ⟨"job", none, some 5, none⟩)
      = some (fun q => if q = 5 then some ProcState.stopped
          else (fun p => if p = 5 then some ProcState.running else none) q) ∧
    Hapless.pause_hap (fun _ => none) (mkHap 1 ⟨"job", none, some 5, some 0⟩)
      = none :=
  ⟨(C9_amended_pause_requires_handle
      (fun p => if p = 5 then some ProcState.running else none)
      (mkHap 1 ⟨"job", none, some 5, none⟩)).2.1 5 ProcState.running (by decide),
    (C9_amended_pause_requires_handle (fun _ => none)
      (mkHap 1 ⟨"job", none, some 5, some 0⟩)).2.2 (by decide)⟩

/-! ### Facts about the name index -/

lemma foldl_namesStep_lookup (st : Registry) (l : List Nat) :
    ∀ (m : String → Option Nat) (s : String),
      (l.foldl (namesStep st) m) s
        = ((l.filter (fun k => dirName st k == some s)).getLast?).elim (m s) some := by
  induction l with
  | nil => intro m s; rfl
  | cons a t ih =>
    intro m s
    rw [List.foldl_cons, ih]
    by_cases ha : (dirName st a == some s) = true
    · rw [List.filter_cons, if_pos ha]
      have hs : dirName st a = some s := by simpa using ha
      cases hft : t.filter (fun k => dirName st k == some s) with
      | nil =>
        show (namesStep st m a) s = some a
        unfold namesStep
        rw [hs]
        simp
      | cons b r =>
        rw [List.getLast?_cons_cons]
        have hsome : ((b :: r).getLast?).isSome = true :=
          List.getLast?_isSome.mpr (by simp)
        rcases Option.isSome_iff_exists.mp hsome with ⟨x, hx⟩
        rw [hx]
        rfl
    · rw [List.filter_cons, if_neg ha]
      cases hft : t.filter (fun k => dirName st k == some s) with
      | nil =>
        show (namesStep st m a) s = m s
        unfold namesStep
        cases hname : dirName st a with
        | none => rfl
        | some n =>
          have hne : ¬ s = n := by
            intro he
            subst he
            rw [hname] at ha
            simp at ha
          simp [hne]
      | cons b r =>
        have hsome : ((b :: r).getLast?).isSome = true :=
          List.getLast?_isSome.mpr (by simp)
        rcases Option.isSome_iff_exists.mp hsome with ⟨x, hx⟩
        rw [hx]
        rfl

/-! ### Claim C10 -/

/-- C10: when several records carry the same name marker, the name index —
built by scanning record directories in ascending id order into a map in
which later entries overwrite earlier ones — maps that name to the record
with the highest id, and resolving that name (when it matches no numeric
id) returns that record. -/
theorem C10_duplicate_name_resolves_highest (st : Registry) (n : String) (k : Nat)
    (hk : k ∈ st.keys) (hname : dirName st k = some n)
    (hmax : ∀ k2 ∈ st.keys, dirName st k2 = some n → k2 ≤ k) :
    Hapless._get_hap_names_map st n = some k ∧
    ((∀ k2 ∈ Hapless._get_hap_dirs st, toString k2 ≠ n) →
      Hapless.get_hap st n = (Registry.find st k).map (mkHap k)) := by
  have hmap : Hapless._get_hap_names_map st n = some k := by
    unfold Hapless._get_hap_names_map
    rw [foldl_namesStep_lookup st (Hapless._get_hap_dirs st) (fun _ => none) n]
    have hsorted : List.Sorted (· ≤ ·)
        ((Hapless._get_hap_dirs st).filter (fun k2 => dirName st k2 == some n)) :=
      List.Pairwise.sublist (List.filter_sublist _) (sorted_get_hap_dirs st)
    have hmem : k ∈ (Hapless._get_hap_dirs st).filter
        (fun k2 => dirName st k2 == some n) :=
      List.mem_filter.mpr ⟨(mem_get_hap_dirs st k).mpr hk, by simp [hname]⟩
    have hbound : ∀ x ∈ (Hapless._get_hap_dirs st).filter
        (fun k2 => dirName st k2 == some n), x ≤ k := by
      intro x hx
      rcases List.mem_filter.mp hx with ⟨hx1, hx2⟩
      exact hmax x ((mem_get_hap_dirs st x).mp hx1) (by simpa using hx2)
    rw [getLast?_eq_of_sorted_max _ hsorted k hmem hbound]
    rfl
  refine ⟨hmap, fun hnoid => ?_⟩
  unfold Hapless.get_hap
  have hfind : (Hapless._get_hap_dirs st).find? (fun k2 => toString k2 == n) = none := by
    apply List.find?_eq_none.mpr
    intro x hx
    simp [hnoid x hx]
  rw [hfind, hmap]

/-- Witness for C10: two concrete records named "x"; the index and the
resolver pick the one with the higher id, 2. -/
theorem C10_duplicate_name_resolves_highest_witness :
    dirName ⟨[(1, ⟨"c1", some "x", none, none⟩), (2, ⟨"c2", some "x", none, none⟩)]⟩
        2 = some "x" ∧
    Hapless._get_hap_names_map
        ⟨[(1, ⟨"c1", some "x", none, none⟩), (2, ⟨"c2", some "x", none, none⟩)]⟩ "x"
      = some 2 ∧
    Hapless.get_hap
        ⟨[(1, ⟨"c1", some "x", none, none⟩), (2, ⟨"c2", some "x", none, none⟩)]⟩ "x"
      = (Registry.find
          ⟨[(1, ⟨"c1", some "x", none, none⟩), (2, ⟨"c2", some "x", none, none⟩)]⟩
          2).map (mkHap 2) := by
  have h := C10_duplicate_name_resolves_highest
    ⟨[(1, ⟨"c1", some "x", none, none⟩), (2, ⟨"c2", some "x", none, none⟩)]⟩
    "x" 2 (by decide) (by decide) (by decide)
  exact ⟨by decide, h.1, h.2 (by decide)⟩

/-! ### Claim C6 -/

lemma get_hap_id_branch (st : Registry) (hapAlias : String) (k : Nat)
    (hk : k ∈ Hapless._get_hap_dirs st) (hts : toString k = hapAlias)
    (huniq : ∀ k2 ∈ Hapless._get_hap_dirs st, toString k2 = hapAlias → k2 = k) :
    (Hapless._get_hap_dirs st).find? (fun k2 => toString k2 == hapAlias) = some k := by
  have hex : ((Hapless._get_hap_dirs st).find?
      (fun k2 => toString k2 == hapAlias)).isSome = true := by
    rw [List.find?_isSome]
    exact ⟨k, hk, by simp [hts]⟩
  rcases Option.isSome_iff_exists.mp hex with ⟨k0, hk0⟩
  have h1 := List.find?_some hk0
  have h2 := List.mem_of_find?_eq_some hk0
  have hk0k : k0 = k := huniq k0 h2 (by simpa using h1)
  rw [hk0, hk0k]

/-- C6: `get_hap` matches the alias against the numeric ids first — when
the alias is the string of an existing id, the resolver returns that id's
record no matter what the name index holds — and when the alias matches
neither a numeric id nor an entry of the name index, it returns `none`
rather than raising. -/
theorem C6_resolve_prefers_id (st : Registry) (hapAlias : String) :
    (∀ k, k ∈ Hapless._get_hap_dirs st → toString k = hapAlias →
        (∀ k2 ∈ Hapless._get_hap_dirs st, toString k2 = hapAlias → k2 = k) →
        Hapless.get_hap st hapAlias = (Registry.find st k).map (mkHap k)) ∧
    ((∀ k ∈ Hapless._get_hap_dirs st, toString k ≠ hapAlias) →
      Hapless._get_hap_names_map st hapAlias = none →
      Hapless.get_hap st hapAlias = none) := by
  constructor
  · intro k hk hts huniq
    unfold Hapless.get_hap
    rw [get_hap_id_branch st hapAlias k hk hts huniq]
  · intro hno hname
    unfold Hapless.get_hap
    have hfind : (Hapless._get_hap_dirs st).find?
        (fun k2 => toString k2 == hapAlias) = none := by
      apply List.find?_eq_none.mpr
      intro x hx
      simp [hno x hx]
    rw [hfind, hname]

/-- Witness for C6: the alias "2" collides with the numeric id 2 and with
record 1's name marker "2"; resolution returns the id match, record 2.
Also: a concrete alias matching nothing resolves to `none`. -/
theorem C6_resolve_prefers_id_witness :
    toString (2 : Nat) = "2" ∧
    Hapless.get_hap ⟨[(1, ⟨"c1", some "2", none, none⟩), (2, ⟨"c2", none, none, none⟩)]⟩
        "2"
      = (Registry.find
          ⟨[(1, ⟨"c1", some "2", none, none⟩), (2, ⟨"c2", none, none, none⟩)]⟩
          2).map (mkHap 2) ∧
    Hapless.get_hap ⟨[(1, ⟨"c1", some "2", none, none⟩), (2, ⟨"c2", none, none, none⟩)]⟩
        "zzz"
      = none := by
  refine ⟨by decide, ?_, ?_⟩
  · exact (C6_resolve_prefers_id
      ⟨[(1, ⟨"c1", some "2", none, none⟩), (2, ⟨"c2", none, none, none⟩)]⟩ "2").1
      2 (by decide) (by decide) (by decide)
  · exact (C6_resolve_prefers_id
      ⟨[(1, ⟨"c1", some "2", none, none⟩), (2, ⟨"c2", none, none, none⟩)]⟩ "zzz").2
      (by decide) (by decide)

/-! ### Facts about restart -/

lemma restartLoop_spec (obs : Nat → Registry) (ptAt : Nat → ProcTable) (hid : Nat) :
    ∀ (fuel k0 j : Nat) (hk : Hap),
      restartLoop obs ptAt hid fuel k0 = some (j, hk) →
      k0 ≤ j ∧ j < k0 + fuel ∧
      Hapless.get_hap (obs j) (toString hid) = some hk ∧
      hk.active (ptAt j) = false ∧
      (∀ i, k0 ≤ i → i < j →
        ∃ hi, Hapless.get_hap (obs i) (toString hid) = some hi ∧
          hi.active (ptAt i) = true) := by
  intro fuel
  induction fuel with
  | zero =>
    intro k0 j hk h0
    simp [restartLoop] at h0
  | succ f ih =>
    intro k0 j hk hres
    rw [show restartLoop obs ptAt hid (f + 1) k0
        = match Hapless.get_hap (obs k0) (toString hid) with
          | none => none
          | some h =>
            if h.active (ptAt k0) then restartLoop obs ptAt hid f (k0 + 1)
            else some (k0, h) from rfl] at hres
    cases hg : Hapless.get_hap (obs k0) (toString hid) with
    | none =>
      rw [hg] at hres
      cases hres
    | some h =>
      simp only [hg] at hres
      by_cases hact : h.active (ptAt k0) = true
      · rw [if_pos hact] at hres
        rcases ih (k0 + 1) j hk hres with ⟨h1, h2, h3, h4, h5⟩
        refine ⟨by omega, by omega, h3, h4, ?_⟩
        intro i hi1 hi2
        rcases Nat.eq_or_lt_of_le hi1 with rfl | hlt
        · exact ⟨h, hg, hact⟩
        · exact h5 i (by omega) hi2
      · rw [if_neg hact] at hres
        have hr := Option.some.inj hres
        have hj : k0 = j := congrArg Prod.fst hr
        have hh : h = hk := congrArg Prod.snd hr
        subst hj
        subst hh
        refine ⟨le_refl _, by omega, hg, Bool.eq_false_iff.mpr hact, ?_⟩
        intro i hi1 hi2
        exact absurd (Nat.lt_of_le_of_lt hi1 hi2) (Nat.lt_irrefl k0)

lemma get_hap_by_id (st : Registry) (hid : Nat)
    (hk : hid ∈ st.keys)
    (huniq : ∀ k2 ∈ st.keys, toString k2 = toString hid → k2 = hid) :
    ∃ d, Registry.find st hid = some d ∧
      Hapless.get_hap st (toString hid) = some (mkHap hid d) := by
  rcases registry_find_isSome st hid hk with ⟨d, hd⟩
  refine ⟨d, hd, ?_⟩
  unfold Hapless.get_hap
  rw [get_hap_id_branch st (toString hid) hid ((mem_get_hap_dirs st hid).mpr hk) rfl
    (fun k2 hk2 hts => huniq k2 ((mem_get_hap_dirs st k2).mp hk2) hts)]
  show (Registry.find st hid).map (mkHap hid) = some (mkHap hid d)
  rw [hd]
  rfl

lemma clean_one_no_key (st : Registry) (h : Hap) (k : Nat) (d : HapDir)
    (hkv : (k, d) ∈ ((Hapless.clean_one st h).1).dirs) : k ≠ h.hid := by
  have hdirs : ((Hapless.clean_one st h).1).dirs
      = st.dirs.filter
          (fun kv => !(((Hapless.get_haps st).filter (fun g => g.hid == h.hid)).any
            (fun g => kv.1 == g.hid))) :=
    foldl_rmtree_dirs _ st
  have h2 := hkv
  rw [hdirs] at h2
  exact (clean_one_mem_iff st h k d (List.mem_of_mem_filter h2)).mp hkv

/-! ### Claim C2 -/

/-- C2: a completed `restart` performed exactly the source's sequence: the
kill branch ran iff the record's derived status was active at the outset;
the record was re-fetched by its id and polled, every poll before the last
observing it still active and the last observing it inactive; the old
record's backing storage was deleted (no surviving directory carries its
id); and a new job was launched with the same command and the same name,
under the freshly allocated next id — an id no existing record carries. -/
theorem C2_restart_sequence (fuel : Nat) (obs : Nat → Registry)
    (ptAt : Nat → ProcTable) (hap : Hap) (r : RestartResult)
    (hres : Hapless.restart fuel obs ptAt hap = some r)
    (hpersist : ∀ i, i ≤ fuel →
      hap.hid ∈ (obs i).keys ∧
      ∀ k2 ∈ (obs i).keys, toString k2 = toString hap.hid → k2 = hap.hid) :
    r.killed = hap.active (ptAt 0) ∧
    r.polls < fuel ∧
    (∀ i < r.polls,
      ∃ hi, Hapless.get_hap (obs i) (toString hap.hid) = some hi ∧
        hi.active (ptAt i) = true) ∧
    Hapless.get_hap (obs r.polls) (toString hap.hid) = some r.fetched ∧
    r.fetched.active (ptAt r.polls) = false ∧
    r.fetched.hid = hap.hid ∧
    r.afterDelete = (Hapless.clean_one (obs r.polls) r.fetched).1 ∧
    (∀ kv ∈ r.afterDelete.dirs, kv.1 ≠ hap.hid) ∧
    r.newHap.cmd = hap.cmd ∧ r.newHap.name = hap.name ∧
    r.newHap.pid = none ∧ r.newHap.rc = none ∧
    r.newHap.hid = Hapless.get_next_hap_id r.afterDelete ∧
    r.newHap.hid ∉ r.afterDelete.keys ∧
    r.final = (Hapless.run r.afterDelete hap.cmd hap.name).1 := by
  unfold Hapless.restart at hres
  cases hloop : restartLoop obs ptAt hap.hid fuel 0 with
  | none =>
    rw [hloop] at hres
    cases hres
  | some kh =>
    rcases kh with ⟨k, hk⟩
    rw [hloop] at hres
    have hr := Option.some.inj hres
    subst hr
    rcases restartLoop_spec obs ptAt hap.hid fuel 0 k hk hloop with
      ⟨_, hkfuel, hget, hinact, hpolls⟩
    have hkle : k ≤ fuel := by omega
    rcases hpersist k hkle with ⟨hkey, huniq⟩
    rcases get_hap_by_id (obs k) hap.hid hkey huniq with ⟨d, _, hgh⟩
    have hhk : hk = mkHap hap.hid d := Option.some.inj (hget.symm.trans hgh)
    refine ⟨rfl, ?_, ?_, ?_, ?_, ?_, rfl, ?_, rfl, rfl, rfl, rfl, rfl, ?_, rfl⟩
    · show k < fuel
      omega
    · show ∀ i < k, ∃ hi, Hapless.get_hap (obs i) (toString hap.hid) = some hi ∧
        hi.active (ptAt i) = true
      exact fun i hi => hpolls i (Nat.zero_le i) hi
    · exact hget
    · exact hinact
    · show hk.hid = hap.hid
      rw [hhk]
      exact rfl
    · show ∀ kv ∈ ((Hapless.clean_one (obs k) hk).1).dirs, kv.1 ≠ hap.hid
      intro kv hkv
      cases kv with
      | mk k1 d1 =>
        have h8 := clean_one_no_key (obs k) hk k1 d1 hkv
        rw [hhk] at h8
        exact h8
    · show Hapless.get_next_hap_id ((Hapless.clean_one (obs k) hk).1)
        ∉ ((Hapless.clean_one (obs k) hk).1).keys
      exact get_next_hap_id_not_mem _

/-- Concrete restart scenario for the C2 witness: one record with id 1 and
pid 5, observed running at the first poll; by the second poll the detached
flow has written exit code -9 (the kill), so the record is inactive. -/
def obsW : Nat → Registry := fun i =>
  if i = 0 then ⟨[(1, ⟨"c", none, some 5, none⟩)]⟩
  else ⟨[(1, ⟨"c", none, some 5, some (-9)⟩)]⟩

/-- Process table stream for the C2 witness: pid 5 reported running. -/
def ptW : Nat → ProcTable := fun _ p =>
  if p = 5 then some ProcState.running else none

/-- The record handed to `restart` in the C2 witness. -/
def hapW : Hap := mkHap 1 ⟨"c", none, some 5, none⟩

/-- The completed restart outcome in the C2 witness. -/
def resW : RestartResult :=
  ⟨true, 1, mkHap 1 ⟨"c", none, some 5, some (-9)⟩, ⟨[]⟩,
    mkHap 1 ⟨"c", none, none, none⟩, ⟨[(1, ⟨"c", none, none, none⟩)]⟩⟩

/-- Witness for C2: the concrete scenario's restart completes in one kill,
two polls and a relaunch, and satisfies every clause of the sequence. -/
theorem C2_restart_sequence_witness :
    resW.killed = hapW.active (ptW 0) ∧
    resW.polls < 3 ∧
    (∀ i < resW.polls,
      ∃ hi, Hapless.get_hap (obsW i) (toString hapW.hid) = some hi ∧
        hi.active (ptW i) = true) ∧
    Hapless.get_hap (obsW resW.polls) (toString hapW.hid) = some resW.fetched ∧
    resW.fetched.active (ptW resW.polls) = false ∧
    resW.fetched.hid = hapW.hid ∧
    resW.afterDelete = (Hapless.clean_one (obsW resW.polls) resW.fetched).1 ∧
    (∀ kv ∈ resW.afterDelete.dirs, kv.1 ≠ hapW.hid) ∧
    resW.newHap.cmd = hapW.cmd ∧ resW.newHap.name = hapW.name ∧
    resW.newHap.pid = none ∧ resW.newHap.rc = none ∧
    resW.newHap.hid = Hapless.get_next_hap_id resW.afterDelete ∧
    resW.newHap.hid ∉ resW.afterDelete.keys ∧
    resW.final = (Hapless.run resW.afterDelete hapW.cmd hapW.name).1 :=
  C2_restart_sequence 3 obsW ptW hapW resW (by decide) (by decide)
